import Mathlib

set_option autoImplicit false
set_option maxRecDepth 10000

/-!
Shallow embedding of the `github` block of this repository
(`src/blocks/github.rs`) and verification of its specification.

The embedding follows the source file:
* `Notification`, `GithubError` mirror the deserialized wire records;
* the aggregation fold of `Github::update` (lines 90-105) becomes
  `aggStep` / `try_fold_agg` over an association-list model of
  `HashMap<String, u64>` (counts as `Nat`);
* the per-poll values map (lines 107-123) becomes `valuesList`;
* `extract_links` (lines 248-266) is embedded as a deterministic matcher
  for the concrete regex
  `(<(?P<url>http(s)?://[^>\s]+)>; rel="(?P<rel>[[:word:]]+))+`
  together with the fold into the map, `rel -> url`, insert-overwrites;
* `Notifications::try_next` (lines 191-223) becomes a state-passing
  function over an explicit "world" `GhWorld` mapping each URL to the
  outcome of the authenticated GET issued for it;
* `ConfigBlock::new` (lines 66-85) becomes `github_new`, taking the
  result of the environment-variable read as an explicit argument.

`FormatTemplate` (from `crate::util`) is not part of `src/`; it is
modelled from the spec where needed and marked as such.
-/

deriving instance DecidableEq for Except

/-- One remote notification record; only `reason` is deserialized
(`struct Notification`, line 226). -/
structure Notification where
  reason : String
deriving DecidableEq

/-- The error values that can cross `try_next` / `update` / `new`:
transport failures, JSON parse failures, structured remote errors
(`GithubError`), block configuration errors, and missing template
placeholders (`Box<dyn Error>` / `crate::errors` in the source). -/
inductive GhErr where
  | transport
  | parse
  | remote (message : String)
  | blockError (block : String) (message : String)
  | missingPlaceholder (name : String)
deriving DecidableEq

/-- Model of `HashMap<String, u64>`: an association list with unique
keys maintained by the operations below; lookup finds the first match. -/
abbrev AggMap := List (String × Nat)

def lookupA : AggMap → String → Option Nat
  | [], _ => none
  | (k, v) :: rest, key => if k = key then some v else lookupA rest key

def hasKeyA (m : AggMap) (k : String) : Bool := (lookupA m k).isSome

/-- Modify the value at a key in place (first occurrence), as
`HashMap::entry(..).and_modify(..)` does for a present key. -/
def updateKeyA : AggMap → String → (Nat → Nat) → AggMap
  | [], _, _ => []
  | (k, v) :: rest, key, f =>
      if k = key then (k, f v) :: rest else (k, v) :: updateKeyA rest key f

/-- `acc.entry(k).and_modify(f).or_insert(d)` (github.rs line 94). -/
def entryAndModifyOrInsert (m : AggMap) (k : String) (f : Nat → Nat) (d : Nat) : AggMap :=
  if hasKeyA m k then updateKeyA m k f else m ++ [(k, d)]

/-- `acc.entry(k).and_modify(f)` with no `or_insert` (github.rs line 95). -/
def entryAndModify (m : AggMap) (k : String) (f : Nat → Nat) : AggMap :=
  if hasKeyA m k then updateKeyA m k f else m

/-- `aggregations.get(k).unwrap_or(&default)` with `default = 0`. -/
def lookupD (m : AggMap) (k : String) (d : Nat) : Nat := (lookupA m k).getD d

/-- `map!("total".to_owned() => 0)` — the fold's initial accumulator. -/
def aggInit : AggMap := [("total", 0)]

/-- One step of the aggregation fold (github.rs lines 94-95):
```
acc.entry(n.reason).and_modify(|v| *v += 1).or_insert(1);
acc.entry("total".to_owned()).and_modify(|v| *v += 1);
```
-/
def aggStep (acc : AggMap) (n : Notification) : AggMap :=
  entryAndModify (entryAndModifyOrInsert acc n.reason (fun v => v + 1) 1) "total"
    (fun v => v + 1)

/-- The pure part of the fold, over the successfully yielded items. -/
def foldAgg (items : List Notification) (acc : AggMap) : AggMap := items.foldl aggStep acc

/-- `Iterator::try_fold` with the closure of `Github::update`
(lines 90-97): the closure evaluates `notif?`, so the first `Err`
yielded by the stream short-circuits the whole fold with that error. -/
def try_fold_agg : List (Except GhErr Notification) → AggMap → Except GhErr AggMap
  | [], acc => Except.ok acc
  | Except.error e :: _, _ => Except.error e
  | Except.ok n :: rest, acc => try_fold_agg rest (aggStep acc n)

/-- The items yielded before the first error of a stream. -/
def okItems : List (Except GhErr Notification) → List Notification
  | [] => []
  | Except.ok n :: rest => n :: okItems rest
  | Except.error _ :: _ => []

/-- Whether a stream contains an error. -/
def hasErrStream : List (Except GhErr Notification) → Bool
  | [] => false
  | Except.ok _ :: rest => hasErrStream rest
  | Except.error _ :: _ => true

/-- The fixed placeholder names of the values map built in
`Github::update` (github.rs lines 108-123). -/
def declaredPlaceholders : List String :=
  ["total", "assign", "author", "comment", "invitation", "manual", "mention",
   "review_requested", "security_alert", "state_change", "subscribed", "team_mention"]

/-- Modelled from the spec: a parsed token of a user format string for
`crate::util::FormatTemplate`, which is not under `src/`.  A format
string is a sequence of literal characters and placeholder tokens
written between braces. -/
inductive FmtTok where
  | lit (s : String)
  | ph (name : String)
deriving DecidableEq

/-- Modelled from the spec: `crate::util::FormatTemplate`. -/
structure FormatTemplate where
  toks : List FmtTok
deriving DecidableEq

def lbrace : Char := Char.ofNat 123

def rbrace : Char := Char.ofNat 125

/-- The map key used for a placeholder name, brace-delimited exactly as
the keys of the values map in `Github::update` are written. -/
def phKey (n : String) : String := "\x7b" ++ n ++ "\x7d"

/-- Modelled from the spec: tokenizer of a format string (fuel-indexed;
the fuel `s.length` always suffices since every step consumes at least
one character). -/
def tokenizeFmtAux : Nat → List Char → List FmtTok
  | 0, _ => []
  | _ + 1, [] => []
  | fuel + 1, c :: rest =>
      if c = lbrace then
        let name := rest.takeWhile (fun d => !(d = rbrace))
        match rest.dropWhile (fun d => !(d = rbrace)) with
        | _ :: rest2 => FmtTok.ph (String.mk name) :: tokenizeFmtAux fuel rest2
        | [] => [FmtTok.lit (String.mk (c :: name))]
      else FmtTok.lit (String.mk [c]) :: tokenizeFmtAux fuel rest

def tokenizeFmt (s : String) : List FmtTok := tokenizeFmtAux s.data.length s.data

/-- The placeholder names referenced by a token list. -/
def phNames (toks : List FmtTok) : List String :=
  toks.filterMap fun t => match t with | FmtTok.ph n => some n | FmtTok.lit _ => none

/-- Modelled from the spec: `FormatTemplate::from_string`, wrapped in
`block_error("github", "Invalid format specified")` as at construction
(github.rs lines 82-83).  Per the spec, format-string validity — every
referenced placeholder token lies in the fixed declared set — is checked
here, at block construction, never per poll. -/
def from_string (s : String) : Except GhErr FormatTemplate :=
  let toks := tokenizeFmt s
  if (phNames toks).all (fun n => decide (n ∈ declaredPlaceholders)) then Except.ok ⟨toks⟩
  else Except.error (GhErr.blockError "github" "Invalid format specified")

/-- Modelled from the spec: substitution of the values map into the
token list; a placeholder absent from the values map is a render error. -/
def renderToks (values : String → Option String) : List FmtTok → Except GhErr String
  | [] => Except.ok ""
  | FmtTok.lit s :: rest => Except.map (fun r => s ++ r) (renderToks values rest)
  | FmtTok.ph n :: rest =>
      match values (phKey n) with
      | none => Except.error (GhErr.missingPlaceholder n)
      | some v => Except.map (fun r => v ++ r) (renderToks values rest)

/-- Modelled from the spec: `FormatTemplate::render_static_str`. -/
def render_static_str (t : FormatTemplate) (values : String → Option String) :
    Except GhErr String :=
  renderToks values t.toks

/-- The values map of `Github::update` (github.rs lines 107-123), in
source order: every fixed placeholder is bound to the decimal rendering
of its aggregate count, defaulting to `0`. -/
def valuesList (agg : AggMap) : List (String × String) :=
  [("{total}", Nat.repr (lookupD agg "total" 0)),
   ("{assign}", Nat.repr (lookupD agg "assign" 0)),
   ("{author}", Nat.repr (lookupD agg "author" 0)),
   ("{comment}", Nat.repr (lookupD agg "comment" 0)),
   ("{invitation}", Nat.repr (lookupD agg "invitation" 0)),
   ("{manual}", Nat.repr (lookupD agg "manual" 0)),
   ("{mention}", Nat.repr (lookupD agg "mention" 0)),
   ("{review_requested}", Nat.repr (lookupD agg "review_requested" 0)),
   ("{security_alert}", Nat.repr (lookupD agg "security_alert" 0)),
   ("{state_change}", Nat.repr (lookupD agg "state_change" 0)),
   ("{subscribed}", Nat.repr (lookupD agg "subscribed" 0)),
   ("{team_mention}", Nat.repr (lookupD agg "team_mention" 0))]

def lookupS : List (String × String) → String → Option String
  | [], _ => none
  | (k, v) :: rest, key => if k = key then some v else lookupS rest key

/-- The values map as a lookup function (the `&values` HashMap handed to
`render_static_str`). -/
def valuesFn (agg : AggMap) (k : String) : Option String := lookupS (valuesList agg) k

/-- Outcome of one `Github::update` call: the text written to the
widget and the returned `Result<Option<Duration>>` (durations in
seconds, as `Nat`). -/
structure UpdateResult where
  text : String
  ret : Except GhErr (Option Nat)
deriving DecidableEq

/-- `Github::update` (github.rs lines 89-128), taking the sequence of
`Result` values yielded by the `Notifications` iterator during this poll
as an explicit stream.  On a fold error the text is set to `"N/A"` and
`Ok(Some(interval))` is returned; on success the rendered string is set
and the same value returned; a render error propagates via `?` leaving
the text unchanged. -/
def github_update (stream : List (Except GhErr Notification)) (format : FormatTemplate)
    (prevText : String) (interval : Nat) : UpdateResult :=
  match try_fold_agg stream aggInit with
  | Except.error _ => ⟨"N/A", Except.ok (some interval)⟩
  | Except.ok aggregations =>
      match render_static_str format (valuesFn aggregations) with
      | Except.error e => ⟨prevText, Except.error e⟩
      | Except.ok s => ⟨s, Except.ok (some interval)⟩

/-- `GithubConfig` (github.rs lines 33-47): interval in seconds. -/
structure GithubConfig where
  interval : Nat
  api_server : String
  format : String

/-- The serde defaults of `GithubConfig` (lines 49-61). -/
def defaultGithubConfig : GithubConfig := ⟨30, "https://api.github.com", "{total}"⟩

/-- The constructed block (relevant fields of `struct Github` plus the
fields of its `GithubClient` and initial widget state). -/
structure GithubBlock where
  update_interval : Nat
  api_server : String
  token : String
  format : FormatTemplate
  text : String
  icon : String

/-- `ConfigBlock::new` for `Github` (github.rs lines 66-85).  The result
of the `std::env::var(GITHUB_TOKEN_ENV)` read is an explicit argument;
the constructor is a pure function of it and the block config — in
particular it performs no network request.  A missing token yields the
`BlockError` of lines 70-73 before anything else is built. -/
def github_new (envToken : Option String) (cfg : GithubConfig) : Except GhErr GithubBlock :=
  match envToken with
  | none => Except.error (GhErr.blockError "github" "missing GITHUB_TOKEN environment variable")
  | some tok =>
      match from_string cfg.format with
      | Except.error e => Except.error e
      | Except.ok t => Except.ok ⟨cfg.interval, cfg.api_server, tok, t, "N/A", "github"⟩

/-- Sum of the values of all non-`"total"` entries of the map: the
"per-category counts" of the spec's invariant. -/
def sumCat : AggMap → Nat
  | [] => 0
  | (k, v) :: rest => (if k = "total" then 0 else v) + sumCat rest

/-- Unicode whitespace matched by the regex class `\\s` (the `regex`
crate's default Unicode semantics). -/
def isWSChar (c : Char) : Bool :=
  (decide (0x9 ≤ c.toNat) && decide (c.toNat ≤ 0xd)) || c.toNat == 0x20 ||
  c.toNat == 0x85 || c.toNat == 0xa0 || c.toNat == 0x1680 ||
  (decide (0x2000 ≤ c.toNat) && decide (c.toNat ≤ 0x200a)) ||
  c.toNat == 0x2028 || c.toNat == 0x2029 || c.toNat == 0x202f ||
  c.toNat == 0x205f || c.toNat == 0x3000

/-- Characters matched by `[^>\\s]` (the URL character class). -/
def isUrlChar (c : Char) : Bool := !(c == '>') && !(isWSChar c)

/-- Characters matched by the ASCII class `[[:word:]]`. -/
def isWordChar (c : Char) : Bool := c.isAlphanum || c == '_'

/-- Strip an exact literal from the head of the input. -/
def stripPfx : List Char → List Char → Option (List Char)
  | [], s => some s
  | _ :: _, [] => none
  | p :: ps, c :: cs => if c = p then stripPfx ps cs else none

/-- Deterministic matcher for one repetition of the body of the regex of
`extract_links` (github.rs line 251):
`<http(s)?://[^>\\s]+>; rel="[[:word:]]+` — note the regex does not
require the closing quote.  Returns the `url` and `rel` capture groups
and the remaining input.  Greedy `(s)?` and the greedy character classes
are deterministic here because each class excludes its terminator. -/
def matchScheme (s : List Char) : Option (List Char × List Char) :=
  match stripPfx "https://".data s with
  | some r => some ("https://".data, r)
  | none =>
      match stripPfx "http://".data s with
      | some r => some ("http://".data, r)
      | none => none

/-- A greedy nonempty run over a character class (`[..]+`): the run and
the rest.  Deterministic because the classes used exclude the
terminator that follows them in the pattern. -/
def matchClass (P : Char → Bool) (s : List Char) : Option (List Char × List Char) :=
  let t := s.takeWhile P
  if t.isEmpty then none else some (t, s.dropWhile P)

/-- Deterministic matcher for one repetition of the body of the regex
of `extract_links` (github.rs line 251):
`<http(s)?://[^>\\s]+>; rel="[[:word:]]+` — note the regex does not
require the closing quote.  Returns the `url` and `rel` capture groups
and the remaining input.  `matchScheme` compiles the greedy `(s)?`
(trying `https://` first is equivalent to backtracking, as `://` cannot
begin with `s`). -/
def matchOne (s : List Char) : Option ((String × String) × List Char) :=
  (stripPfx ['<'] s).bind fun s1 =>
    (matchScheme s1).bind fun schemeRes =>
      (matchClass isUrlChar schemeRes.2).bind fun urlRes =>
        (stripPfx ('>' :: "; rel=\"".data) urlRes.2).bind fun s4 =>
          (matchClass isWordChar s4).bind fun relRes =>
            some ((String.mk (schemeRes.1 ++ urlRes.1), String.mk relRes.1), relRes.2)

/-- Greedy `+` over the repetition: keep matching; the reported capture
groups are those of the last repetition (fuel-indexed; fuel `s.length`
suffices as every repetition consumes at least one character). -/
def matchPlusAux : Nat → (String × String) → List Char → ((String × String) × List Char)
  | 0, cap, s => (cap, s)
  | fuel + 1, cap, s =>
      match matchOne s with
      | none => (cap, s)
      | some (cap2, rest) => matchPlusAux fuel cap2 rest

/-- A full match of the regex (one or more repetitions), anchored at the
head of the input. -/
def matchPlus (s : List Char) : Option ((String × String) × List Char) :=
  match matchOne s with
  | none => none
  | some (cap, rest) => some (matchPlusAux rest.length cap rest)

/-- The scan of `captures_iter`: leftmost matches, non-overlapping,
resuming after each matched text; positions that start no match are
skipped one character at a time. -/
def scanAux : Nat → List Char → List (String × String)
  | 0, _ => []
  | _ + 1, [] => []
  | fuel + 1, c :: rest =>
      match matchPlus (c :: rest) with
      | some (cap, rest2) => cap :: scanAux fuel rest2
      | none => scanAux fuel rest

/-- The `(url, rel)` capture pairs of the successive matches. -/
def linkCaptures (s : List Char) : List (String × String) := scanAux s.length s

def updateKeyS : List (String × String) → String → String → List (String × String)
  | [], _, _ => []
  | (k1, v1) :: rest, k, v =>
      if k1 = k then (k1, v) :: rest else (k1, v1) :: updateKeyS rest k v

/-- `HashMap::insert` on the relation map: overwrite or append. -/
def hmInsert (m : List (String × String)) (k v : String) : List (String × String) :=
  if (lookupS m k).isSome then updateKeyS m k v else m ++ [(k, v)]

/-- `extract_links` (github.rs lines 248-266): fold the capture pairs of
the regex scan into the map `rel -> url`; the result is read with
`lookupS`.  Insertion order makes the last occurrence of a relation
name win. -/
def extract_links (s : String) : List (String × String) :=
  (linkCaptures s.data).foldl (fun acc cap => hmInsert acc cap.2 cap.1) []

/-- `struct GithubError` (github.rs lines 231-234). -/
structure GithubError where
  message : String
deriving DecidableEq

/-- What one authenticated GET produced, as far as `try_next` observes
it: the success bit of the status, the LINK header value (when present
and convertible), and the two possible parses of the body. -/
structure RawResponse where
  statusSuccess : Bool
  linkHeader : Option String
  bodyNotifications : Option (List Notification)
  bodyErrorMessage : Option GithubError
deriving DecidableEq

/-- Outcome of `send()`: a transport error, or a response. -/
inductive FetchOutcome where
  | sendErr
  | resp (r : RawResponse)
deriving DecidableEq

/-- The network as observed by one poll: what the authenticated GET on
each URL returns. -/
def GhWorld : Type := String → FetchOutcome

/-- `struct Notifications` (github.rs lines 171-176): the page buffer
iterator and the cursor. -/
structure Notifications where
  notifications : List Notification
  next_page_url : String
deriving DecidableEq

/-- `GithubClient::notifications` (github.rs lines 161-168): no network
call yet; cursor is the listing endpoint. -/
def notificationsInit (api_server : String) : Notifications :=
  ⟨[], api_server ++ "/notifications"⟩

/-- `Notifications::try_next` (github.rs lines 191-223), with the
network passed explicitly.  Order of effects is the source's: buffer
first; empty-cursor check; GET; status check (body parsed as
`GithubError`; a failed parse of that body is itself the error); LINK
header through `extract_links`, updating the cursor; body parse; first
item of the new page. -/
def try_next (w : GhWorld) (s : Notifications) :
    Except GhErr (Option Notification) × Notifications :=
  match s.notifications with
  | n :: rest => (Except.ok (some n), ⟨rest, s.next_page_url⟩)
  | [] =>
      if s.next_page_url = "" then (Except.ok none, s)
      else
        match w s.next_page_url with
        | FetchOutcome.sendErr => (Except.error GhErr.transport, s)
        | FetchOutcome.resp r =>
            if !r.statusSuccess then
              match r.bodyErrorMessage with
              | none => (Except.error GhErr.parse, s)
              | some ge => (Except.error (GhErr.remote ge.message), s)
            else
              let link_header := r.linkHeader.getD ""
              let nextUrl :=
                match lookupS (extract_links link_header) "next" with
                | some url => url
                | none => ""
              match r.bodyNotifications with
              | none => (Except.error GhErr.parse, ⟨[], nextUrl⟩)
              | some items =>
                  match items with
                  | [] => (Except.ok none, ⟨[], nextUrl⟩)
                  | n :: rest => (Except.ok (some n), ⟨rest, nextUrl⟩)

/-- Run `n` successive `Iterator::next` calls (each is `try_next` with
`Ok(Some(x))↦Some(Ok(x))`, `Ok(None)↦None`, `Err(e)↦Some(Err(e))`;
here the undecorated `try_next` outcomes are recorded). -/
def runN (w : GhWorld) :
    Nat → Notifications → (List (Except GhErr (Option Notification)) × Notifications)
  | 0, s => ([], s)
  | n + 1, s =>
      let step := try_next w s
      let rest := runN w n step.2
      (step.1 :: rest.1, rest.2)

/-- The outcomes of the first `n` calls. -/
def traceN (w : GhWorld) (n : Nat) (s : Notifications) :
    List (Except GhErr (Option Notification)) :=
  (runN w n s).1

/-- One link-header segment `<url>; rel="name"` for the pair
`(name, url)` — with the closing quote, as on the wire. -/
def segStr (p : String × String) : String := "<" ++ p.2 ++ ">; rel=\"" ++ p.1 ++ "\""

/-- A pagination header: segments separated by `", "`. -/
def joinHeader : List (String × String) → String
  | [] => ""
  | [p] => segStr p
  | p :: rest => segStr p ++ ", " ++ joinHeader rest

/-- The URL at which page `i` of an encoded page sequence lives; page 0
is the listing endpoint of the api server `"http://p"`. -/
def pageUrl (i : Nat) : String :=
  "http://p/notifications" ++ String.mk (List.replicate i 'x')

/-- Recover the page index from a page URL (inverse of `pageUrl`). -/
def decodeUrl (url : String) : Option Nat :=
  match stripPfx "http://p/notifications".data url.data with
  | some rest => if rest.all (fun c => c == 'x') then some rest.length else none
  | none => none

/-- A world realizing a finite sequence of pages: page `i` is served at
`pageUrl i`, every fetch succeeds, each page but the last links to the
next one, and the last page has no link header. -/
def mkWorld (pages : List (List Notification)) : GhWorld := fun url =>
  match decodeUrl url with
  | some i =>
      if i < pages.length then
        FetchOutcome.resp ⟨true,
          (if i + 1 < pages.length then some (segStr ("next", pageUrl (i + 1))) else none),
          some (pages.getD i []), none⟩
      else FetchOutcome.sendErr
  | none => FetchOutcome.sendErr

/-- A world realizing pages `0 .. pages.length - 1`, each linking
onward, where fetching the page after the last good one produces the
outcome `bad`. -/
def mkWorldErr (pages : List (List Notification)) (bad : FetchOutcome) : GhWorld := fun url =>
  match decodeUrl url with
  | some i =>
      if i < pages.length then
        FetchOutcome.resp ⟨true, some (segStr ("next", pageUrl (i + 1))),
          some (pages.getD i []), none⟩
      else if i = pages.length then bad
      else FetchOutcome.sendErr
  | none => FetchOutcome.sendErr

/-- The error `try_next` surfaces when a fetch outcome is a failure
(`none` when the outcome is a successfully parsed page). -/
def fetchFailure : FetchOutcome → Option GhErr
  | FetchOutcome.sendErr => some GhErr.transport
  | FetchOutcome.resp r =>
      if !r.statusSuccess then
        match r.bodyErrorMessage with
        | none => some GhErr.parse
        | some ge => some (GhErr.remote ge.message)
      else
        match r.bodyNotifications with
        | none => some GhErr.parse
        | some _ => none

/-- A URL the regex of `extract_links` can accept: `http://` or
`https://` followed by at least one character, none of which is `>` or
whitespace. -/
def goodUrl (u : String) : Bool :=
  match stripPfx "http://".data u.data with
  | some t => !t.isEmpty && t.all isUrlChar
  | none =>
      match stripPfx "https://".data u.data with
      | some t => !t.isEmpty && t.all isUrlChar
      | none => false

/-- A `(name, url)` pair whose segment the regex of `extract_links`
accepts: nonempty word-character name, `goodUrl` url. -/
def goodPairB (p : String × String) : Bool :=
  !p.1.data.isEmpty && p.1.data.all isWordChar && goodUrl p.2

/-- The characters of a segment up to (not including) the closing
quote: `<url>; rel="name` — exactly what one repetition of the regex
consumes for a good pair. -/
def segCore (p : String × String) : List Char :=
  '<' :: (p.2.data ++ '>' :: "; rel=\"".data ++ p.1.data)

/-- The url bound to the LAST occurrence of a relation name in a
`(name, url)` pair list — what insert-overwrites folding realizes. -/
def lastRel : List (String × String) → String → Option String
  | [], _ => none
  | p :: rest, r =>
      match lastRel rest r with
      | some v => some v
      | none => if p.1 = r then some p.2 else none

/-- Same, over `(url, rel)` capture pairs. -/
def lastCapture : List (String × String) → String → Option String
  | [], _ => none
  | c :: rest, k =>
      match lastCapture rest k with
      | some v => some v
      | none => if c.2 = k then some c.1 else none

/-- Modelled from the spec (§4.1): recognizer of one well-formed
segment of the shape `<URL>; rel="NAME"`, returning its `(name, url)`
pair; the URL is any nonempty run of non-`>`, non-whitespace characters
and the name a nonempty word-character run, with the closing quote. -/
def specSegmentPair (seg : String) : Option (String × String) :=
  match stripPfx ['<'] seg.data with
  | none => none
  | some s1 =>
      let url := s1.takeWhile isUrlChar
      match stripPfx ('>' :: "; rel=\"".data) (s1.dropWhile isUrlChar) with
      | none => none
      | some s2 =>
          let name := s2.takeWhile isWordChar
          match s2.dropWhile isWordChar with
          | ['"'] =>
              if url.isEmpty || name.isEmpty then none
              else some (String.mk name, String.mk url)
          | _ => none

theorem hasKeyA_eq_isSome (m : AggMap) (k : String) :
    hasKeyA m k = (lookupA m k).isSome := rfl

theorem hasKeyA_false_lookupA (m : AggMap) (k : String) (h : hasKeyA m k = false) :
    lookupA m k = none := by
  unfold hasKeyA at h
  cases hl : lookupA m k with
  | none => rfl
  | some v => rw [hl] at h; simp at h

theorem lookupA_updateKeyA_self (m : AggMap) (k : String) (f : Nat → Nat) :
    lookupA (updateKeyA m k f) k = Option.map f (lookupA m k) := by
  induction m with
  | nil => rfl
  | cons p rest ih =>
      obtain ⟨k1, v⟩ := p
      by_cases h : k1 = k <;> simp [updateKeyA, lookupA, h, ih]

theorem lookupA_updateKeyA_ne (m : AggMap) (k : String) (f : Nat → Nat) (k2 : String)
    (h : k2 ≠ k) : lookupA (updateKeyA m k f) k2 = lookupA m k2 := by
  induction m with
  | nil => rfl
  | cons p rest ih =>
      obtain ⟨k1, v⟩ := p
      by_cases h1 : k1 = k
      · subst h1
        simp [updateKeyA, lookupA, show ¬ k1 = k2 from fun hh => h hh.symm]
      · simp [updateKeyA, h1, lookupA, ih]

theorem lookupA_append_ne (m : AggMap) (k : String) (d : Nat) (k2 : String) (h : k2 ≠ k) :
    lookupA (m ++ [(k, d)]) k2 = lookupA m k2 := by
  induction m with
  | nil => simp [lookupA, show ¬ k = k2 from fun hh => h hh.symm]
  | cons p rest ih =>
      obtain ⟨k1, v⟩ := p
      rw [List.cons_append]
      by_cases h1 : k1 = k2 <;> simp [lookupA, h1, ih]

theorem lookupA_append_self_absent (m : AggMap) (k : String) (d : Nat)
    (h : lookupA m k = none) : lookupA (m ++ [(k, d)]) k = some d := by
  induction m with
  | nil => simp [lookupA]
  | cons p rest ih =>
      obtain ⟨k1, v⟩ := p
      rw [List.cons_append]
      by_cases h1 : k1 = k
      · simp only [lookupA, if_pos h1] at h
        exact absurd h (by simp)
      · simp only [lookupA, if_neg h1] at h
        simp only [lookupA, if_neg h1]
        exact ih h

theorem lookupA_EAMI_self_present (m : AggMap) (k : String) (f : Nat → Nat) (d : Nat)
    (h : hasKeyA m k = true) :
    lookupA (entryAndModifyOrInsert m k f d) k = Option.map f (lookupA m k) := by
  simp only [entryAndModifyOrInsert, if_pos h, lookupA_updateKeyA_self]

theorem lookupA_EAMI_self_absent (m : AggMap) (k : String) (f : Nat → Nat) (d : Nat)
    (h : hasKeyA m k = false) :
    lookupA (entryAndModifyOrInsert m k f d) k = some d := by
  simp only [entryAndModifyOrInsert, h, Bool.false_eq_true, if_false]
  exact lookupA_append_self_absent m k d (hasKeyA_false_lookupA m k h)

theorem lookupA_EAMI_ne (m : AggMap) (k : String) (f : Nat → Nat) (d : Nat) (k2 : String)
    (h : k2 ≠ k) :
    lookupA (entryAndModifyOrInsert m k f d) k2 = lookupA m k2 := by
  unfold entryAndModifyOrInsert
  split
  · exact lookupA_updateKeyA_ne m k f k2 h
  · exact lookupA_append_ne m k d k2 h

theorem lookupA_EAM_self (m : AggMap) (k : String) (f : Nat → Nat) :
    lookupA (entryAndModify m k f) k = Option.map f (lookupA m k) := by
  unfold entryAndModify
  split
  · exact lookupA_updateKeyA_self m k f
  · next h =>
      rw [hasKeyA_false_lookupA m k (by simpa using h)]
      rfl

theorem lookupA_EAM_ne (m : AggMap) (k : String) (f : Nat → Nat) (k2 : String)
    (h : k2 ≠ k) : lookupA (entryAndModify m k f) k2 = lookupA m k2 := by
  unfold entryAndModify
  split
  · exact lookupA_updateKeyA_ne m k f k2 h
  · rfl

theorem hasKeyA_updateKeyA (m : AggMap) (k : String) (f : Nat → Nat) (k2 : String) :
    hasKeyA (updateKeyA m k f) k2 = hasKeyA m k2 := by
  by_cases h : k2 = k
  · subst h
    rw [hasKeyA_eq_isSome, hasKeyA_eq_isSome, lookupA_updateKeyA_self]
    cases lookupA m k2 <;> rfl
  · rw [hasKeyA_eq_isSome, hasKeyA_eq_isSome, lookupA_updateKeyA_ne m k f k2 h]

theorem hasKeyA_EAMI (m : AggMap) (k : String) (f : Nat → Nat) (d : Nat) (k2 : String) :
    hasKeyA (entryAndModifyOrInsert m k f d) k2 = true ↔
      hasKeyA m k2 = true ∨ k2 = k := by
  by_cases h : k2 = k
  · subst h
    refine ⟨fun _ => Or.inr rfl, fun _ => ?_⟩
    cases hk : hasKeyA m k2 with
    | true =>
        rw [hasKeyA_eq_isSome, lookupA_EAMI_self_present m k2 f d hk]
        rw [hasKeyA_eq_isSome] at hk
        cases hl : lookupA m k2 with
        | none => rw [hl] at hk; exact absurd hk (by simp)
        | some v => rfl
    | false =>
        rw [hasKeyA_eq_isSome, lookupA_EAMI_self_absent m k2 f d hk]
        rfl
  · rw [hasKeyA_eq_isSome, lookupA_EAMI_ne m k f d k2 h, ← hasKeyA_eq_isSome]
    simp [h]

theorem hasKeyA_EAM (m : AggMap) (k : String) (f : Nat → Nat) (k2 : String) :
    hasKeyA (entryAndModify m k f) k2 = hasKeyA m k2 := by
  unfold entryAndModify
  split
  · exact hasKeyA_updateKeyA m k f k2
  · rfl

theorem lookupA_aggStep_total (acc : AggMap) (n : Notification) (h : n.reason ≠ "total") :
    lookupA (aggStep acc n) "total" = Option.map (fun v => v + 1) (lookupA acc "total") := by
  unfold aggStep
  rw [lookupA_EAM_self, lookupA_EAMI_ne acc n.reason _ _ "total" (fun hh => h hh.symm)]

theorem lookupD_aggStep_ne_total (acc : AggMap) (n : Notification) (r : String)
    (hr : r ≠ "total") :
    lookupD (aggStep acc n) r 0 = lookupD acc r 0 + (if n.reason = r then 1 else 0) := by
  unfold aggStep lookupD
  rw [lookupA_EAM_ne _ _ _ r hr]
  by_cases h : n.reason = r
  · subst h
    cases hk : hasKeyA acc n.reason with
    | true =>
        rw [lookupA_EAMI_self_present acc n.reason _ _ hk]
        rw [hasKeyA_eq_isSome] at hk
        cases hl : lookupA acc n.reason with
        | none => rw [hl] at hk; exact absurd hk (by simp)
        | some v => simp
    | false =>
        rw [lookupA_EAMI_self_absent acc n.reason _ _ hk,
          hasKeyA_false_lookupA acc n.reason hk]
        simp
  · rw [lookupA_EAMI_ne acc n.reason _ _ r (fun hh => h hh.symm)]
    simp [h]

theorem hasKeyA_aggStep (acc : AggMap) (n : Notification) (k : String) :
    hasKeyA (aggStep acc n) k = true ↔ hasKeyA acc k = true ∨ k = n.reason := by
  unfold aggStep
  rw [hasKeyA_EAM]
  exact hasKeyA_EAMI acc n.reason _ _ k

theorem sumCat_updateKeyA_total (m : AggMap) (f : Nat → Nat) :
    sumCat (updateKeyA m "total" f) = sumCat m := by
  induction m with
  | nil => rfl
  | cons p rest ih =>
      obtain ⟨k1, v⟩ := p
      by_cases h : k1 = "total" <;> simp [updateKeyA, sumCat, h, ih]

theorem sumCat_updateKeyA_succ (m : AggMap) (k : String) (hk : k ≠ "total")
    (h : hasKeyA m k = true) :
    sumCat (updateKeyA m k (fun v => v + 1)) = sumCat m + 1 := by
  induction m with
  | nil => simp [hasKeyA, lookupA] at h
  | cons p rest ih =>
      obtain ⟨k1, v⟩ := p
      by_cases h1 : k1 = k
      · subst h1
        simp only [updateKeyA, if_pos rfl, sumCat, if_neg hk]
        omega
      · have h2 : hasKeyA rest k = true := by
          rw [hasKeyA_eq_isSome] at h ⊢
          simpa [lookupA, h1] using h
        simp only [updateKeyA, if_neg h1, sumCat, ih h2]
        omega

theorem sumCat_append (m : AggMap) (k : String) (d : Nat) :
    sumCat (m ++ [(k, d)]) = sumCat m + (if k = "total" then 0 else d) := by
  induction m with
  | nil => simp only [List.nil_append, sumCat]; omega
  | cons p rest ih =>
      obtain ⟨k1, v⟩ := p
      rw [List.cons_append]
      simp only [sumCat, ih]
      omega

theorem sumCat_EAM_total (m : AggMap) (f : Nat → Nat) :
    sumCat (entryAndModify m "total" f) = sumCat m := by
  unfold entryAndModify
  split
  · exact sumCat_updateKeyA_total m f
  · rfl

theorem sumCat_aggStep (acc : AggMap) (n : Notification) (h : n.reason ≠ "total") :
    sumCat (aggStep acc n) = sumCat acc + 1 := by
  unfold aggStep
  rw [sumCat_EAM_total]
  unfold entryAndModifyOrInsert
  split
  · next hk => exact sumCat_updateKeyA_succ acc n.reason h hk
  · rw [sumCat_append]
    simp [h]

theorem foldAgg_total_count : ∀ (items : List Notification) (acc : AggMap),
    (∀ n ∈ items, n.reason ≠ "total") → hasKeyA acc "total" = true →
    lookupA (foldAgg items acc) "total"
      = Option.map (fun v => v + items.length) (lookupA acc "total") := by
  intro items
  induction items with
  | nil =>
      intro acc _ _
      simp only [foldAgg, List.foldl_nil, List.length_nil]
      cases lookupA acc "total" <;> rfl
  | cons n rest ih =>
      intro acc h ht
      have hn : n.reason ≠ "total" := h n (List.mem_cons_self n rest)
      have hrest : ∀ x ∈ rest, x.reason ≠ "total" := fun x hx => h x (List.mem_cons_of_mem n hx)
      have ht2 : hasKeyA (aggStep acc n) "total" = true :=
        (hasKeyA_aggStep acc n "total").2 (Or.inl ht)
      have step := ih (aggStep acc n) hrest ht2
      simp only [foldAgg, List.foldl_cons] at step ⊢
      rw [step, lookupA_aggStep_total acc n hn]
      cases lookupA acc "total" with
      | none => rfl
      | some v => simp [List.length_cons]; omega

theorem foldAgg_count : ∀ (items : List Notification) (acc : AggMap) (r : String),
    r ≠ "total" →
    lookupD (foldAgg items acc) r 0
      = lookupD acc r 0 + items.countP (fun n => decide (n.reason = r)) := by
  intro items
  induction items with
  | nil => intro acc r _; simp [foldAgg]
  | cons n rest ih =>
      intro acc r hr
      have step := ih (aggStep acc n) r hr
      simp only [foldAgg, List.foldl_cons] at step ⊢
      rw [step, lookupD_aggStep_ne_total acc n r hr, List.countP_cons]
      by_cases h : n.reason = r
      · simp [h]
        omega
      · simp [h]

theorem foldAgg_total_sumCat : ∀ (items : List Notification) (acc : AggMap),
    (∀ n ∈ items, n.reason ≠ "total") →
    lookupA acc "total" = some (sumCat acc) →
    lookupA (foldAgg items acc) "total" = some (sumCat (foldAgg items acc)) := by
  intro items
  induction items with
  | nil => intro acc _ hacc; simpa [foldAgg] using hacc
  | cons n rest ih =>
      intro acc h hacc
      have hn : n.reason ≠ "total" := h n (List.mem_cons_self n rest)
      have hrest : ∀ x ∈ rest, x.reason ≠ "total" := fun x hx => h x (List.mem_cons_of_mem n hx)
      simp only [foldAgg, List.foldl_cons]
      refine ih (aggStep acc n) hrest ?_
      rw [lookupA_aggStep_total acc n hn, hacc, sumCat_aggStep acc n hn]
      rfl

theorem hasKeyA_foldAgg : ∀ (items : List Notification) (acc : AggMap) (k : String),
    hasKeyA (foldAgg items acc) k = true ↔
      hasKeyA acc k = true ∨ ∃ n ∈ items, n.reason = k := by
  intro items
  induction items with
  | nil => intro acc k; simp [foldAgg]
  | cons n rest ih =>
      intro acc k
      simp only [foldAgg, List.foldl_cons]
      rw [show List.foldl aggStep (aggStep acc n) rest = foldAgg rest (aggStep acc n) from rfl,
        ih (aggStep acc n) k, hasKeyA_aggStep acc n k]
      constructor
      · rintro (⟨h | h⟩ | ⟨x, hx, hr⟩)
        · exact Or.inl h
        · exact Or.inr ⟨n, List.mem_cons_self n rest, h.symm⟩
        · exact Or.inr ⟨x, List.mem_cons_of_mem n hx, hr⟩
      · rintro (h | ⟨x, hx, hr⟩)
        · exact Or.inl (Or.inl h)
        · rcases List.mem_cons.1 hx with rfl | hx2
          · exact Or.inl (Or.inr hr.symm)
          · exact Or.inr ⟨x, hx2, hr⟩

theorem try_fold_agg_no_err : ∀ (stream : List (Except GhErr Notification)) (acc : AggMap),
    hasErrStream stream = false →
    try_fold_agg stream acc = Except.ok (foldAgg (okItems stream) acc) := by
  intro stream
  induction stream with
  | nil => intro acc _; rfl
  | cons x rest ih =>
      intro acc h
      cases x with
      | error e => simp [hasErrStream] at h
      | ok n =>
          simp only [hasErrStream] at h
          simp only [try_fold_agg, okItems, foldAgg, List.foldl_cons]
          exact ih (aggStep acc n) h

theorem try_fold_agg_err : ∀ (stream : List (Except GhErr Notification)) (acc : AggMap),
    hasErrStream stream = true →
    ∃ e, try_fold_agg stream acc = Except.error e := by
  intro stream
  induction stream with
  | nil => intro acc h; simp [hasErrStream] at h
  | cons x rest ih =>
      intro acc h
      cases x with
      | error e => exact ⟨e, rfl⟩
      | ok n =>
          simp only [hasErrStream] at h
          exact ih (aggStep acc n) h

theorem values_declared (agg : AggMap) (n : String) (h : n ∈ declaredPlaceholders) :
    valuesFn agg (phKey n) = some (Nat.repr (lookupD agg n 0)) := by
  simp only [declaredPlaceholders, List.mem_cons, List.not_mem_nil, or_false] at h
  rcases h with rfl | rfl | rfl | rfl | rfl | rfl | rfl | rfl | rfl | rfl | rfl | rfl <;> rfl

theorem renderToks_ok (agg : AggMap) : ∀ (toks : List FmtTok),
    (∀ n ∈ phNames toks, n ∈ declaredPlaceholders) →
    ∃ out, renderToks (valuesFn agg) toks = Except.ok out := by
  intro toks
  induction toks with
  | nil => intro _; exact ⟨"", rfl⟩
  | cons t rest ih =>
      intro h
      cases t with
      | lit s =>
          obtain ⟨out, hout⟩ := ih (fun n hn => h n (by simp [phNames] at hn ⊢; exact hn))
          exact ⟨s ++ out, by simp [renderToks, hout, Except.map]⟩
      | ph n =>
          have hn : n ∈ declaredPlaceholders := h n (by simp [phNames])
          obtain ⟨out, hout⟩ := ih (fun m hm => h m (by simp [phNames] at hm ⊢; exact Or.inr hm))
          refine ⟨Nat.repr (lookupD agg n 0) ++ out, ?_⟩
          simp [renderToks, values_declared agg n hn, hout, Except.map]

/-- C9: with the credential environment variable absent, block
construction returns the configuration error of github.rs lines 70-73;
`github_new` is a pure function of the environment read and the config
— no network request occurs during construction — and the error means
the block value is never built, so the block never activates. -/
theorem C9_missing_credential (cfg : GithubConfig) :
    github_new none cfg
      = Except.error
          (GhErr.blockError "github" "missing GITHUB_TOKEN environment variable") := rfl

/-- C10: folding an item whose `reason` is the exact string `"total"`
increments the `"total"` entry twice — once by the reason-bucket line,
once by the running-total line — and creates no new key, so no category
bucket distinguishable from the total exists for such items. -/
theorem C10_total_reason_double (acc : AggMap) (h : hasKeyA acc "total" = true) :
    lookupA (aggStep acc ⟨"total"⟩) "total"
      = Option.map (fun v => v + 2) (lookupA acc "total")
    ∧ (∀ k, hasKeyA (aggStep acc ⟨"total"⟩) k = true ↔ hasKeyA acc k = true) := by
  constructor
  · show lookupA (entryAndModify (entryAndModifyOrInsert acc "total" _ 1) "total" _) "total" = _
    rw [lookupA_EAM_self, lookupA_EAMI_self_present acc "total" _ 1 h]
    cases lookupA acc "total" <;> rfl
  · intro k
    rw [hasKeyA_aggStep]
    constructor
    · rintro (hk | rfl)
      · exact hk
      · exact h
    · exact Or.inl

/-- C10 witness: on the initial accumulator `{total: 0}`, the item with
reason `"total"` drives the total entry to `0 + 2`. -/
theorem C10_witness :
    hasKeyA aggInit "total" = true
    ∧ lookupA (aggStep aggInit ⟨"total"⟩) "total"
        = Option.map (fun v => v + 2) (lookupA aggInit "total") :=
  ⟨by decide, (C10_total_reason_double aggInit (by decide)).1⟩

/-- C3 (amended): provided no folded item has reason exactly `"total"`,
the fold starting from `{total: 0}` gives `total` = number of items
folded before any error, and every category other than `"total"`
counts exactly the folded items with that reason; on an error-free
stream this accumulated map is what `try_fold` returns.  (The claim is
false as stated: an item with reason `"total"` makes the `"total"`
entry exceed the item count — see the counterexample.) -/
theorem C3_aggregate_counts (stream : List (Except GhErr Notification))
    (h : ∀ n ∈ okItems stream, n.reason ≠ "total") :
    lookupA (foldAgg (okItems stream) aggInit) "total" = some (okItems stream).length
    ∧ (∀ r, r ≠ "total" →
        lookupD (foldAgg (okItems stream) aggInit) r 0
          = (okItems stream).countP (fun n => decide (n.reason = r)))
    ∧ (hasErrStream stream = false →
        try_fold_agg stream aggInit = Except.ok (foldAgg (okItems stream) aggInit)) := by
  refine ⟨?_, ?_, try_fold_agg_no_err stream aggInit⟩
  · rw [foldAgg_total_count (okItems stream) aggInit h (by decide)]
    simp [aggInit, lookupA]
  · intro r hr
    rw [foldAgg_count (okItems stream) aggInit r hr]
    simp [lookupD, aggInit, lookupA, show ¬ "total" = r from fun hh => hr hh.symm]

/-- C3 witness: the spec's example stream `[mention, mention, author]`
gives `{total: 3, mention: 2, author: 1}`. -/
theorem C3_witness :
    (∀ n ∈ okItems [Except.ok (Notification.mk "mention"), Except.ok ⟨"mention"⟩,
        Except.ok ⟨"author"⟩], n.reason ≠ "total")
    ∧ lookupA (foldAgg (okItems [Except.ok (Notification.mk "mention"),
          Except.ok ⟨"mention"⟩, Except.ok ⟨"author"⟩]) aggInit) "total"
        = some (okItems [Except.ok (Notification.mk "mention"), Except.ok ⟨"mention"⟩,
            Except.ok ⟨"author"⟩]).length
    ∧ foldAgg (okItems [Except.ok (Notification.mk "mention"), Except.ok ⟨"mention"⟩,
          Except.ok ⟨"author"⟩]) aggInit
        = [("total", 3), ("mention", 2), ("author", 1)] :=
  ⟨by decide,
   (C3_aggregate_counts [Except.ok (Notification.mk "mention"), Except.ok ⟨"mention"⟩,
      Except.ok ⟨"author"⟩] (by decide)).1,
   by decide⟩

/-- C3 counterexample: folding the single item `{reason: "total"}` puts
`2` in the `"total"` entry, not the item count `1`. -/
theorem C3_counterexample :
    lookupA (foldAgg (okItems [Except.ok (Notification.mk "total")]) aggInit) "total"
      = some 2
    ∧ (okItems [Except.ok (Notification.mk "total")]).length = 1
    ∧ some (2 : Nat) ≠ some 1 := by decide

/-- C4 (amended): at every intermediate step (i.e. for every folded
item list, hence for every prefix), provided no folded item has reason
exactly `"total"`, the `"total"` entry equals the sum of all
per-category (non-total) counts, and a bucket exists only for `"total"`
or for a reason that has actually been folded (no zero-initialized
buckets except `total`).  (The sum half is false as stated for items
with reason `"total"` — see the counterexample.) -/
theorem C4_total_invariant (items : List Notification)
    (h : ∀ n ∈ items, n.reason ≠ "total") :
    lookupA (foldAgg items aggInit) "total" = some (sumCat (foldAgg items aggInit))
    ∧ (∀ r, hasKeyA (foldAgg items aggInit) r = true →
        r = "total" ∨ ∃ n ∈ items, n.reason = r) := by
  constructor
  · exact foldAgg_total_sumCat items aggInit h (by decide)
  · intro r hr
    rcases (hasKeyA_foldAgg items aggInit r).1 hr with hk | hx
    · left
      by_cases he : r = "total"
      · exact he
      · rw [hasKeyA_eq_isSome] at hk
        simp [aggInit, lookupA, show ¬ "total" = r from fun hh => he hh.symm] at hk
    · exact Or.inr hx

/-- C4 witness: after folding `[mention]`, the total `1` equals the sum
of the per-category counts. -/
theorem C4_witness :
    (∀ n ∈ [Notification.mk "mention"], n.reason ≠ "total")
    ∧ lookupA (foldAgg [Notification.mk "mention"] aggInit) "total"
        = some (sumCat (foldAgg [Notification.mk "mention"] aggInit)) :=
  ⟨by decide, (C4_total_invariant [Notification.mk "mention"] (by decide)).1⟩

/-- C4 counterexample: after folding the item `{reason: "total"}`, the
`"total"` entry holds `2` while the sum of per-category counts is `0`,
so the claimed invariant fails. -/
theorem C4_counterexample :
    lookupA (foldAgg [Notification.mk "total"] aggInit) "total" = some 2
    ∧ sumCat (foldAgg [Notification.mk "total"] aggInit) = 0
    ∧ some (2 : Nat) ≠ some 0 := by decide

/-- C5: whenever the fetch-and-aggregate fold of a poll errors (for any
cause the stream can carry: transport, non-success status, unparsable
body), `Github::update` sets the widget text to the sentinel `"N/A"`
and returns `Ok(Some(interval))` — the normal reschedule value — so no
per-poll fetch/aggregate error crosses the poll boundary. -/
theorem C5_error_fallback (stream : List (Except GhErr Notification))
    (format : FormatTemplate) (prevText : String) (interval : Nat)
    (h : ∃ e, try_fold_agg stream aggInit = Except.error e) :
    github_update stream format prevText interval
      = ⟨"N/A", Except.ok (some interval)⟩ := by
  obtain ⟨e, he⟩ := h
  simp [github_update, he]

/-- C5 witness: a poll whose first fetch fails in transport renders
`"N/A"` and reschedules. -/
theorem C5_witness :
    (∃ e, try_fold_agg [Except.error GhErr.transport] aggInit = Except.error e)
    ∧ github_update [Except.error GhErr.transport] ⟨[FmtTok.ph "total"]⟩ "x" 30
        = ⟨"N/A", Except.ok (some 30)⟩ :=
  ⟨⟨GhErr.transport, rfl⟩,
   C5_error_fallback [Except.error GhErr.transport] ⟨[FmtTok.ph "total"]⟩ "x" 30
     ⟨GhErr.transport, rfl⟩⟩

/-- C7: a format string referencing a placeholder outside the fixed
declared set is rejected at construction (`from_string`), and any
format accepted at construction never fails at poll time: every
`update` returns `Ok(Some(interval))`.  (`FormatTemplate` is modelled
from the spec; it is not under `src/`.) -/
theorem C7_format_validation (s : String) :
    ((∃ n, n ∈ phNames (tokenizeFmt s) ∧ n ∉ declaredPlaceholders) →
      ∃ e, from_string s = Except.error e)
    ∧ (∀ t, from_string s = Except.ok t →
        ∀ stream prevText interval,
          (github_update stream t prevText interval).ret = Except.ok (some interval)) := by
  constructor
  · rintro ⟨n, hn, hnd⟩
    refine ⟨GhErr.blockError "github" "Invalid format specified", ?_⟩
    have hneg : ¬ ((phNames (tokenizeFmt s)).all
        (fun m => decide (m ∈ declaredPlaceholders)) = true) := by
      intro hall
      rw [List.all_eq_true] at hall
      exact hnd (by simpa using hall n hn)
    simp only [from_string, if_neg hneg]
  · intro t ht stream prevText interval
    by_cases hall : (phNames (tokenizeFmt s)).all
        (fun m => decide (m ∈ declaredPlaceholders)) = true
    · simp only [from_string, if_pos hall] at ht
      cases ht
      rw [List.all_eq_true] at hall
      unfold github_update
      cases hfold : try_fold_agg stream aggInit with
      | error e => rfl
      | ok agg =>
          obtain ⟨out, hout⟩ := renderToks_ok agg (tokenizeFmt s)
            (fun n hn => by simpa using hall n hn)
          simp only [render_static_str] at hout ⊢
          rw [hout]
    · simp only [from_string, if_neg hall] at ht
      cases ht

/-- C7 witness: `"{foo}"` is rejected at construction; `"{total}"` is
accepted and the resulting template's polls always reschedule. -/
theorem C7_witness :
    (∃ n, n ∈ phNames (tokenizeFmt "{foo}") ∧ n ∉ declaredPlaceholders)
    ∧ (∃ e, from_string "{foo}" = Except.error e)
    ∧ from_string "{total}" = Except.ok ⟨[FmtTok.ph "total"]⟩
    ∧ (github_update [] ⟨[FmtTok.ph "total"]⟩ "x" 30).ret = Except.ok (some 30) :=
  ⟨⟨"foo", by decide, by decide⟩,
   (C7_format_validation "{foo}").1 ⟨"foo", by decide, by decide⟩,
   by decide,
   (C7_format_validation "{total}").2 ⟨[FmtTok.ph "total"]⟩ (by decide) [] "x" 30⟩

/-- C8: the renderer bridge hands the template a mapping over exactly
the fixed placeholder set, each key bound to the decimal rendering of
its aggregate count with `0` for never-observed categories; with format
`"{total} ({mention})"` and aggregate
`{total: 3, mention: 2, author: 1}` the rendered text is `"3 (2)"`. -/
theorem C8_renderer_bridge (agg : AggMap) :
    (valuesList agg).map Prod.fst = declaredPlaceholders.map phKey
    ∧ (∀ n, n ∈ declaredPlaceholders →
        valuesFn agg (phKey n) = some (Nat.repr (lookupD agg n 0)))
    ∧ Except.map
        (fun t => (github_update [Except.ok (Notification.mk "mention"),
            Except.ok ⟨"mention"⟩, Except.ok ⟨"author"⟩] t "x" 30).text)
        (from_string "{total} ({mention})") = Except.ok "3 (2)" :=
  ⟨rfl, fun n hn => values_declared agg n hn, by decide⟩

/-- C8 witness: on the aggregate of the spec's example, the `mention`
placeholder is bound to the decimal string of its count. -/
theorem C8_witness :
    "mention" ∈ declaredPlaceholders
    ∧ valuesFn [("total", 3), ("mention", 2), ("author", 1)] (phKey "mention")
        = some (Nat.repr (lookupD [("total", 3), ("mention", 2), ("author", 1)] "mention" 0)) :=
  ⟨by decide,
   (C8_renderer_bridge [("total", 3), ("mention", 2), ("author", 1)]).2.1 "mention"
     (by decide)⟩

theorem mk_data (s : String) : String.mk s.data = s := by cases s; rfl

theorem stripPfx_append (p : List Char) : ∀ r, stripPfx p (p ++ r) = some r := by
  induction p with
  | nil => intro r; rfl
  | cons c cs ih => intro r; simp [stripPfx, ih]

theorem stripPfx_some_eq : ∀ (p s r : List Char), stripPfx p s = some r → s = p ++ r := by
  intro p
  induction p with
  | nil =>
      intro s r h
      simp only [stripPfx] at h
      cases h
      rfl
  | cons c cs ih =>
      intro s r h
      cases s with
      | nil => cases h
      | cons d ds =>
          by_cases hd : d = c
          · subst hd
            simp only [stripPfx, if_pos rfl] at h
            rw [List.cons_append, ← ih ds r h]
          · simp [stripPfx, hd] at h

theorem scanAux_nil_input : ∀ fuel, scanAux fuel [] = [] := by
  intro fuel; cases fuel <;> rfl

theorem matchOne_not_langle (c : Char) (s : List Char) (h : ¬ c = '<') :
    matchOne (c :: s) = none := by
  simp [matchOne, stripPfx, h]

theorem scan_skip (c : Char) (h : ¬ c = '<') (fuel : Nat) (s : List Char) :
    scanAux (fuel + 1) (c :: s) = scanAux fuel s := by
  simp [scanAux, matchPlus, matchOne_not_langle c s h]

theorem takeWhile_boundary (P : Char → Bool) :
    ∀ (l : List Char) (c : Char) (r : List Char),
    (∀ x ∈ l, P x = true) → P c = false →
    (l ++ c :: r).takeWhile P = l ∧ (l ++ c :: r).dropWhile P = c :: r := by
  intro l
  induction l with
  | nil =>
      intro c r _ hc
      simp [List.takeWhile_cons, List.dropWhile_cons, hc]
  | cons x xs ih =>
      intro c r h hc
      have hx : P x = true := h x (List.mem_cons_self x xs)
      have hxs : ∀ y ∈ xs, P y = true := fun y hy => h y (List.mem_cons_of_mem x hy)
      obtain ⟨h1, h2⟩ := ih c r hxs hc
      simp [List.takeWhile_cons, List.dropWhile_cons, hx, h1, h2]

theorem isEmpty_false_of_ne_nil {α : Type} (l : List α) (h : l ≠ []) :
    l.isEmpty = false := by
  cases l with
  | nil => exact absurd rfl h
  | cons a as => rfl

theorem matchScheme_http (r : List Char) :
    matchScheme ("http://".data ++ r) = some ("http://".data, r) := by
  simp [matchScheme, stripPfx]

theorem matchScheme_https (r : List Char) :
    matchScheme ("https://".data ++ r) = some ("https://".data, r) := by
  simp [matchScheme, stripPfx]

theorem matchClass_boundary (P : Char → Bool) (l : List Char) (c : Char) (r : List Char)
    (hl : ∀ x ∈ l, P x = true) (hne : l ≠ []) (hc : P c = false) :
    matchClass P (l ++ c :: r) = some (l, c :: r) := by
  obtain ⟨h1, h2⟩ := takeWhile_boundary P l c r hl hc
  simp [matchClass, h1, h2, isEmpty_false_of_ne_nil l hne]

theorem goodUrl_elim (u : String) (h : goodUrl u = true) :
    ∃ sch t, (sch = "http://".data ∨ sch = "https://".data)
      ∧ u.data = sch ++ t ∧ t ≠ [] ∧ ∀ c ∈ t, isUrlChar c = true := by
  cases h1 : stripPfx "http://".data u.data with
  | some t =>
      have hu : u.data = "http://".data ++ t := stripPfx_some_eq _ _ _ h1
      simp only [goodUrl, h1, Bool.and_eq_true, Bool.not_eq_true'] at h
      refine ⟨"http://".data, t, Or.inl rfl, hu, ?_, List.all_eq_true.1 h.2⟩
      intro hnil
      rw [hnil] at h
      simp at h
  | none =>
      cases h2 : stripPfx "https://".data u.data with
      | some t =>
          have hu : u.data = "https://".data ++ t := stripPfx_some_eq _ _ _ h2
          simp only [goodUrl, h1, h2, Bool.and_eq_true, Bool.not_eq_true'] at h
          refine ⟨"https://".data, t, Or.inr rfl, hu, ?_, List.all_eq_true.1 h.2⟩
          intro hnil
          rw [hnil] at h
          simp at h
      | none =>
          simp only [goodUrl, h1, h2] at h
          exact Bool.noConfusion h

theorem goodPairB_elim (p : String × String) (h : goodPairB p = true) :
    p.1.data ≠ [] ∧ (∀ c ∈ p.1.data, isWordChar c = true) ∧ goodUrl p.2 = true := by
  simp only [goodPairB, Bool.and_eq_true, Bool.not_eq_true'] at h
  obtain ⟨⟨h1, h2⟩, h3⟩ := h
  refine ⟨?_, List.all_eq_true.1 h2, h3⟩
  intro hnil
  rw [hnil] at h1
  simp at h1

theorem matchOne_seg (p : String × String) (rest : List Char) (h : goodPairB p = true) :
    matchOne (segCore p ++ '"' :: rest) = some ((p.2, p.1), '"' :: rest) := by
  obtain ⟨hname, hword, hurl⟩ := goodPairB_elim p h
  obtain ⟨sch, t, hsch, hu, htne, htall⟩ := goodUrl_elim p.2 hurl
  have hshape : segCore p ++ '"' :: rest
      = '<' :: (sch ++ (t ++ ('>' :: ("; rel=\"".data ++ (p.1.data ++ '"' :: rest))))) := by
    simp [segCore, hu, List.append_assoc]
  rw [hshape]
  have hstrip1 : stripPfx ['<']
      ('<' :: (sch ++ (t ++ ('>' :: ("; rel=\"".data ++ (p.1.data ++ '"' :: rest))))))
      = some (sch ++ (t ++ ('>' :: ("; rel=\"".data ++ (p.1.data ++ '"' :: rest))))) := by
    simp [stripPfx]
  have hscheme : matchScheme (sch ++ (t ++ ('>' :: ("; rel=\"".data ++ (p.1.data ++ '"' :: rest)))))
      = some (sch, t ++ ('>' :: ("; rel=\"".data ++ (p.1.data ++ '"' :: rest)))) := by
    rcases hsch with rfl | rfl
    · exact matchScheme_http _
    · exact matchScheme_https _
  have hurlcls : matchClass isUrlChar (t ++ ('>' :: ("; rel=\"".data ++ (p.1.data ++ '"' :: rest))))
      = some (t, '>' :: ("; rel=\"".data ++ (p.1.data ++ '"' :: rest))) :=
    matchClass_boundary isUrlChar t '>' _ htall htne (by decide)
  have hstrip2 : stripPfx ('>' :: "; rel=\"".data)
      ('>' :: ("; rel=\"".data ++ (p.1.data ++ '"' :: rest)))
      = some (p.1.data ++ '"' :: rest) := by
    have hx : ('>' : Char) :: ("; rel=\"".data ++ (p.1.data ++ '"' :: rest))
        = ('>' :: "; rel=\"".data) ++ (p.1.data ++ '"' :: rest) := by simp
    rw [hx]
    exact stripPfx_append _ _
  have hwordcls : matchClass isWordChar (p.1.data ++ '"' :: rest)
      = some (p.1.data, '"' :: rest) :=
    matchClass_boundary isWordChar p.1.data '"' rest hword hname (by decide)
  unfold matchOne
  rw [hstrip1]
  simp only [Option.bind]
  rw [hscheme]
  simp only [Option.bind]
  rw [hurlcls]
  simp only [Option.bind]
  rw [hstrip2]
  simp only [Option.bind]
  rw [hwordcls]
  simp only [Option.bind]
  rw [← hu, mk_data, mk_data]

theorem matchPlus_seg (p : String × String) (rest : List Char) (h : goodPairB p = true) :
    matchPlus (segCore p ++ '"' :: rest) = some ((p.2, p.1), '"' :: rest) := by
  unfold matchPlus
  rw [matchOne_seg p rest h]
  have haux : matchPlusAux (rest.length + 1) (p.2, p.1) ('"' :: rest)
      = ((p.2, p.1), '"' :: rest) := by
    simp [matchPlusAux, matchOne_not_langle '"' rest (by decide)]
  simp [haux]

theorem scan_seg_step (p : String × String) (tail : List Char) (hp : goodPairB p = true)
    (f : Nat) :
    scanAux (f + 1) (segCore p ++ '"' :: tail) = (p.2, p.1) :: scanAux f ('"' :: tail) := by
  have hm := matchPlus_seg p tail hp
  have hshape : segCore p ++ '"' :: tail
      = '<' :: (p.2.data ++ '>' :: "; rel=\"".data ++ p.1.data ++ '"' :: tail) := by
    simp [segCore]
  rw [hshape] at hm ⊢
  simp only [scanAux]
  rw [hm]

theorem segStr_data (p : String × String) : (segStr p).data = segCore p ++ ['"'] := by
  have h1 : ("<" : String).data = ['<'] := rfl
  have h2 : (">; rel=\"" : String).data = '>' :: "; rel=\"".data := rfl
  have h3 : ("\"" : String).data = ['"'] := rfl
  simp [segStr, segCore, String.data_append, h1, h2, h3, List.append_assoc]

theorem segCore_length_pos (p : String × String) : 1 ≤ (segCore p).length := by
  simp [segCore]

theorem scan_joinHeader : ∀ (L : List (String × String)) (fuel : Nat),
    (∀ p ∈ L, goodPairB p = true) → (joinHeader L).data.length ≤ fuel →
    scanAux fuel (joinHeader L).data = L.map (fun p => (p.2, p.1)) := by
  intro L
  induction L with
  | nil =>
      intro fuel _ _
      show scanAux fuel ("" : String).data = []
      exact scanAux_nil_input fuel
  | cons p rest ih =>
      intro fuel hgood hfuel
      have hp : goodPairB p = true := hgood p (List.mem_cons_self p rest)
      have hrest : ∀ q ∈ rest, goodPairB q = true :=
        fun q hq => hgood q (List.mem_cons_of_mem p hq)
      cases rest with
      | nil =>
          have hdata : (joinHeader [p]).data = segCore p ++ '"' :: [] := by
            show (segStr p).data = _
            rw [segStr_data]
          rw [hdata] at hfuel ⊢
          have hlen : (segCore p ++ '"' :: []).length = (segCore p).length + 1 := by
            simp
          have hseg1 := segCore_length_pos p
          cases fuel with
          | zero => omega
          | succ f =>
              rw [scan_seg_step p [] hp f]
              have hf1 : 1 ≤ f := by omega
              cases f with
              | zero => omega
              | succ f2 =>
                  rw [scan_skip '"' (by decide) f2 []]
                  rw [scanAux_nil_input f2]
                  rfl
      | cons q rest2 =>
          have h4 : (", " : String).data = [',', ' '] := rfl
          have hdata : (joinHeader (p :: q :: rest2)).data
              = segCore p ++ '"' :: ',' :: ' ' :: (joinHeader (q :: rest2)).data := by
            show (segStr p ++ ", " ++ joinHeader (q :: rest2)).data = _
            rw [String.data_append, String.data_append, segStr_data, h4]
            simp [List.append_assoc]
          rw [hdata] at hfuel ⊢
          have hlen : (segCore p ++ '"' :: ',' :: ' ' :: (joinHeader (q :: rest2)).data).length
              = (segCore p).length + 3 + (joinHeader (q :: rest2)).data.length := by
            simp
            omega
          have hseg1 := segCore_length_pos p
          cases fuel with
          | zero => omega
          | succ f =>
              rw [scan_seg_step p (',' :: ' ' :: (joinHeader (q :: rest2)).data) hp f]
              obtain ⟨f3, rfl, hf3⟩ :
                  ∃ f3, f = f3 + 3 ∧ (joinHeader (q :: rest2)).data.length ≤ f3 := by
                refine ⟨f - 3, by omega, by omega⟩
              show (p.2, p.1) :: scanAux (f3 + 2 + 1)
                  ('"' :: ',' :: ' ' :: (joinHeader (q :: rest2)).data) = _
              rw [scan_skip '"' (by decide) (f3 + 2) _]
              show (p.2, p.1) :: scanAux (f3 + 1 + 1)
                  (',' :: ' ' :: (joinHeader (q :: rest2)).data) = _
              rw [scan_skip ',' (by decide) (f3 + 1) _]
              show (p.2, p.1) :: scanAux (f3 + 1) (' ' :: (joinHeader (q :: rest2)).data) = _
              rw [scan_skip ' ' (by decide) f3 _]
              rw [ih f3 hrest hf3]
              rfl

theorem data_mk (l : List Char) : (String.mk l).data = l := rfl

theorem lookupS_updateKeyS_self (m : List (String × String)) (k v : String)
    (h : (lookupS m k).isSome = true) : lookupS (updateKeyS m k v) k = some v := by
  induction m with
  | nil => simp [lookupS] at h
  | cons p rest ih =>
      obtain ⟨k1, v1⟩ := p
      by_cases h1 : k1 = k
      · subst h1; simp [updateKeyS, lookupS]
      · simp only [lookupS, if_neg h1] at h
        simp [updateKeyS, h1, lookupS, ih h]

theorem lookupS_updateKeyS_ne (m : List (String × String)) (k v k2 : String) (h : k2 ≠ k) :
    lookupS (updateKeyS m k v) k2 = lookupS m k2 := by
  induction m with
  | nil => rfl
  | cons p rest ih =>
      obtain ⟨k1, v1⟩ := p
      by_cases h1 : k1 = k
      · subst h1
        simp [updateKeyS, lookupS, show ¬ k1 = k2 from fun hh => h hh.symm]
      · simp [updateKeyS, h1, lookupS, ih]

theorem lookupS_append_ne (m : List (String × String)) (k v k2 : String) (h : k2 ≠ k) :
    lookupS (m ++ [(k, v)]) k2 = lookupS m k2 := by
  induction m with
  | nil => simp [lookupS, show ¬ k = k2 from fun hh => h hh.symm]
  | cons p rest ih =>
      obtain ⟨k1, v1⟩ := p
      rw [List.cons_append]
      by_cases h1 : k1 = k2 <;> simp [lookupS, h1, ih]

theorem lookupS_append_self_absent (m : List (String × String)) (k v : String)
    (h : lookupS m k = none) : lookupS (m ++ [(k, v)]) k = some v := by
  induction m with
  | nil => simp [lookupS]
  | cons p rest ih =>
      obtain ⟨k1, v1⟩ := p
      rw [List.cons_append]
      by_cases h1 : k1 = k
      · simp only [lookupS, if_pos h1] at h
        exact absurd h (by simp)
      · simp only [lookupS, if_neg h1] at h
        simp only [lookupS, if_neg h1]
        exact ih h

theorem lookupS_hmInsert (m : List (String × String)) (k v k2 : String) :
    lookupS (hmInsert m k v) k2 = if k2 = k then some v else lookupS m k2 := by
  by_cases h : k2 = k
  · subst h
    unfold hmInsert
    cases hk : (lookupS m k2).isSome with
    | true => simp [hk, lookupS_updateKeyS_self m k2 v hk]
    | false =>
        have hn : lookupS m k2 = none := by
          cases hl : lookupS m k2 with
          | none => rfl
          | some v1 => rw [hl] at hk; simp at hk
        simp [hk, lookupS_append_self_absent m k2 v hn]
  · unfold hmInsert
    split
    · simp [h, lookupS_updateKeyS_ne m k v k2 h]
    · simp [h, lookupS_append_ne m k v k2 h]

theorem lookupS_capFold : ∀ (caps acc : List (String × String)) (k : String),
    lookupS (caps.foldl (fun a c => hmInsert a c.2 c.1) acc) k
      = match lastCapture caps k with
        | some v => some v
        | none => lookupS acc k := by
  intro caps
  induction caps with
  | nil => intro acc k; rfl
  | cons c caps2 ih =>
      intro acc k
      rw [List.foldl_cons, ih (hmInsert acc c.2 c.1) k]
      simp only [lastCapture]
      cases lastCapture caps2 k with
      | some v => rfl
      | none =>
          rw [lookupS_hmInsert]
          by_cases h : c.2 = k
          · simp [h]
          · simp [h, show ¬ k = c.2 from fun hh => h hh.symm]

theorem lastCapture_swap : ∀ (L : List (String × String)) (r : String),
    lastCapture (L.map (fun p => (p.2, p.1))) r = lastRel L r := by
  intro L
  induction L with
  | nil => intro r; rfl
  | cons p rest ih => intro r; simp only [List.map_cons, lastCapture, lastRel, ih]

theorem extract_links_joinHeader (L : List (String × String))
    (h : ∀ p ∈ L, goodPairB p = true) (r : String) :
    lookupS (extract_links (joinHeader L)) r = lastRel L r := by
  unfold extract_links linkCaptures
  rw [scan_joinHeader L (joinHeader L).data.length h (Nat.le_refl _),
    lookupS_capFold, lastCapture_swap]
  cases lastRel L r with
  | some v => rfl
  | none => rfl

theorem goodPair_next (u : String) (hu : goodUrl u = true) :
    goodPairB ("next", u) = true := by
  simp [goodPairB, hu]
  decide

theorem extract_links_next (u : String) (hu : goodUrl u = true) :
    lookupS (extract_links (segStr ("next", u))) "next" = some u := by
  have h := extract_links_joinHeader [("next", u)]
    (by
      intro p hp
      simp only [List.mem_singleton] at hp
      subst hp
      exact goodPair_next u hu) "next"
  have hj : joinHeader [("next", u)] = segStr ("next", u) := rfl
  rw [hj] at h
  rw [h]
  simp [lastRel]

theorem goodUrl_pageUrl (i : Nat) : goodUrl (pageUrl i) = true := by
  have hdata : (pageUrl i).data
      = "http://".data ++ ("p/notifications".data ++ List.replicate i 'x') := by
    show ("http://p/notifications" ++ String.mk (List.replicate i 'x')).data = _
    rw [String.data_append, data_mk,
      show ("http://p/notifications" : String).data
          = "http://".data ++ "p/notifications".data from rfl,
      List.append_assoc]
  have hrepl : (List.replicate i 'x').all isUrlChar = true := by
    rw [List.all_eq_true]
    intro c hc
    rw [(List.mem_replicate.1 hc).2]
    decide
  have hlit : ("p/notifications" : String).data.all isUrlChar = true := by decide
  have hcons : ("p/notifications" : String).data ++ List.replicate i 'x'
      = 'p' :: (("/notifications" : String).data ++ List.replicate i 'x') := by
    rw [show ("p/notifications" : String).data
        = 'p' :: ("/notifications" : String).data from rfl]
    rfl
  simp only [goodUrl, hdata, stripPfx_append]
  rw [Bool.and_eq_true]
  refine ⟨?_, ?_⟩
  · rw [hcons]; rfl
  · rw [List.all_append, hlit, hrepl]; rfl

/-- C6 (amended): the parser is total and, reading "well-formed" as the
shape the regex actually accepts — `<URL>; rel="NAME` with URL starting
`http://` or `https://` and free of `>`/whitespace, quoted name of word
characters (closing quote not required; unquoted names and other URL
schemes are skipped as malformed) — every `", "`-separated header made
of such segments maps to exactly those (name → url) pairs, last
occurrence winning on duplicate names, and the empty input yields the
empty mapping.  (As stated the claim fails: see the counterexample,
where a segment of the spec's well-formed shape is skipped.) -/
theorem C6_link_header (L : List (String × String)) (h : ∀ p ∈ L, goodPairB p = true) :
    (∀ r, lookupS (extract_links (joinHeader L)) r = lastRel L r)
    ∧ extract_links "" = [] :=
  ⟨fun r => extract_links_joinHeader L h r, rfl⟩

/-- C6 witness: two well-formed segments sharing the relation name
`next` — the mapping holds the later URL. -/
theorem C6_witness :
    (∀ p ∈ [("next", "http://a/b"), ("next", "http://a/c")], goodPairB p = true)
    ∧ lookupS (extract_links (joinHeader [("next", "http://a/b"), ("next", "http://a/c")]))
        "next" = lastRel [("next", "http://a/b"), ("next", "http://a/c")] "next"
    ∧ lastRel [("next", "http://a/b"), ("next", "http://a/c")] "next"
        = some "http://a/c" :=
  ⟨by decide,
   (C6_link_header [("next", "http://a/b"), ("next", "http://a/c")] (by decide)).1 "next",
   by decide⟩

/-- C6 counterexample: `<ftp://x>; rel="next"` is exactly of the spec's
well-formed shape `<URL>; rel="NAME"` (as recognized by the
spec-modelled `specSegmentPair`), yet `extract_links` returns the empty
mapping on it: the regex admits only `http(s)://` URLs, so the claimed
"exactly the pairs of its well-formed segments" fails. -/
theorem C6_counterexample :
    specSegmentPair "<ftp://x>; rel=\"next\"" = some ("next", "ftp://x")
    ∧ extract_links "<ftp://x>; rel=\"next\"" = [] := by decide

theorem pageUrl_data (i : Nat) :
    (pageUrl i).data = "http://p/notifications".data ++ List.replicate i 'x' := by
  show ("http://p/notifications" ++ String.mk (List.replicate i 'x')).data = _
  rw [String.data_append, data_mk]

theorem pageUrl_ne_empty (i : Nat) : ¬ pageUrl i = "" := by
  intro h
  have h2 : (pageUrl i).data = [] := by rw [h]
  rw [pageUrl_data] at h2
  have h3 := (List.append_eq_nil.1 h2).1
  rw [show ("http://p/notifications" : String).data
      = 'h' :: ("ttp://p/notifications" : String).data from rfl] at h3
  exact List.cons_ne_nil _ _ h3

theorem decodeUrl_pageUrl (i : Nat) : decodeUrl (pageUrl i) = some i := by
  have hall : (List.replicate i 'x').all (fun c => c == 'x') = true := by
    rw [List.all_eq_true]
    intro c hc
    rw [(List.mem_replicate.1 hc).2]
    rfl
  unfold decodeUrl
  rw [pageUrl_data, stripPfx_append]
  show (if (List.replicate i 'x').all (fun c => c == 'x') = true
      then some (List.replicate i 'x').length else none) = some i
  rw [if_pos hall, List.length_replicate]

theorem runN_drain (w : GhWorld) : ∀ (b : List Notification) (u : String) (m : Nat),
    runN w (b.length + m) ⟨b, u⟩
      = ((b.map fun n => Except.ok (some n)) ++ (runN w m ⟨[], u⟩).1,
         (runN w m ⟨[], u⟩).2) := by
  intro b
  induction b with
  | nil => intro u m; simp
  | cons n rest ih =>
      intro u m
      have hstep : try_next w ⟨n :: rest, u⟩ = (Except.ok (some n), ⟨rest, u⟩) := rfl
      show runN w (rest.length + 1 + m) ⟨n :: rest, u⟩ = _
      rw [show rest.length + 1 + m = (rest.length + m) + 1 from by omega]
      simp only [runN, hstep]
      rw [ih u m]
      simp

theorem runN_exhausted (w : GhWorld) : ∀ m : Nat,
    runN w m ⟨[], ""⟩ = (List.replicate m (Except.ok none), ⟨[], ""⟩) := by
  intro m
  induction m with
  | zero => rfl
  | succ k ih =>
      have hstep : try_next w ⟨[], ""⟩ = (Except.ok none, ⟨[], ""⟩) := rfl
      simp only [runN, hstep, ih]
      simp [List.replicate_succ]

theorem runN_add (w : GhWorld) : ∀ (a b : Nat) (s : Notifications),
    runN w (a + b) s
      = ((runN w a s).1 ++ (runN w b (runN w a s).2).1,
         (runN w b (runN w a s).2).2) := by
  intro a
  induction a with
  | zero => intro b s; simp [runN]
  | succ a2 ih =>
      intro b s
      rw [show a2 + 1 + b = (a2 + b) + 1 from by omega]
      simp only [runN]
      rw [ih b (try_next w s).2]
      simp

theorem try_next_fetch (w : GhWorld) (u : String) (hu : ¬ u = "")
    (r : RawResponse) (hw : w u = FetchOutcome.resp r) (hs : r.statusSuccess = true)
    (items : List Notification) (hb : r.bodyNotifications = some items) :
    try_next w ⟨[], u⟩
      = (match items with
         | [] => ((Except.ok none : Except GhErr (Option Notification)),
             (⟨[], match lookupS (extract_links (r.linkHeader.getD "")) "next" with
                   | some url => url
                   | none => ""⟩ : Notifications))
         | n :: rest => (Except.ok (some n),
             ⟨rest, match lookupS (extract_links (r.linkHeader.getD "")) "next" with
                    | some url => url
                    | none => ""⟩)) := by
  unfold try_next
  simp only [hw, hs, hb, if_neg hu, Bool.not_true, Bool.false_eq_true, if_false]
  cases items <;> rfl

theorem try_next_fail (w : GhWorld) (u : String) (hu : ¬ u = "")
    (e : GhErr) (hw : fetchFailure (w u) = some e) :
    (try_next w ⟨[], u⟩).1 = Except.error e := by
  cases hwu : w u with
  | sendErr =>
      rw [hwu] at hw
      simp only [fetchFailure] at hw
      rw [← Option.some.inj hw]
      simp [try_next, hwu, if_neg hu]
  | resp r =>
      rw [hwu] at hw
      simp only [fetchFailure] at hw
      cases hs : r.statusSuccess with
      | false =>
          rw [hs] at hw
          simp only [Bool.not_false, if_pos] at hw
          cases hge : r.bodyErrorMessage with
          | none =>
              rw [hge] at hw
              rw [← Option.some.inj hw]
              simp [try_next, hwu, if_neg hu, hs, hge]
          | some ge =>
              rw [hge] at hw
              rw [← Option.some.inj hw]
              simp [try_next, hwu, if_neg hu, hs, hge]
      | true =>
          rw [hs] at hw
          simp only [Bool.not_true, Bool.false_eq_true, if_false] at hw
          cases hb : r.bodyNotifications with
          | some items => rw [hb] at hw; cases hw
          | none =>
              rw [hb] at hw
              rw [← Option.some.inj hw]
              simp [try_next, hwu, if_neg hu, hs, hb]

theorem try_next_mkWorld (pages : List (List Notification)) (k : Nat)
    (hk : k < pages.length) :
    try_next (mkWorld pages) ⟨[], pageUrl k⟩
      = (match pages.getD k [] with
         | [] => ((Except.ok none : Except GhErr (Option Notification)),
             (⟨[], if k + 1 < pages.length then pageUrl (k + 1) else ""⟩ : Notifications))
         | n :: rest => (Except.ok (some n),
             ⟨rest, if k + 1 < pages.length then pageUrl (k + 1) else ""⟩)) := by
  have hw : mkWorld pages (pageUrl k)
      = FetchOutcome.resp ⟨true,
          (if k + 1 < pages.length then some (segStr ("next", pageUrl (k + 1))) else none),
          some (pages.getD k []), none⟩ := by
    simp [mkWorld, decodeUrl_pageUrl, hk]
  rw [try_next_fetch (mkWorld pages) (pageUrl k) (pageUrl_ne_empty k) _ hw rfl
    (pages.getD k []) rfl]
  have hnext : (match lookupS (extract_links
        (((if k + 1 < pages.length then some (segStr ("next", pageUrl (k + 1))) else none) :
          Option String).getD "")) "next" with
      | some url => url
      | none => "") = if k + 1 < pages.length then pageUrl (k + 1) else "" := by
    by_cases h2 : k + 1 < pages.length
    · simp only [if_pos h2, Option.getD_some]
      rw [extract_links_next (pageUrl (k + 1)) (goodUrl_pageUrl (k + 1))]
    · simp only [if_neg h2, Option.getD_none]
      rfl
  rw [hnext]
  cases pages.getD k [] <;> rfl

theorem try_next_mkWorldErr (pages : List (List Notification)) (bad : FetchOutcome)
    (k : Nat) (hk : k < pages.length) :
    try_next (mkWorldErr pages bad) ⟨[], pageUrl k⟩
      = (match pages.getD k [] with
         | [] => ((Except.ok none : Except GhErr (Option Notification)),
             (⟨[], pageUrl (k + 1)⟩ : Notifications))
         | n :: rest => (Except.ok (some n), ⟨rest, pageUrl (k + 1)⟩)) := by
  have hw : mkWorldErr pages bad (pageUrl k)
      = FetchOutcome.resp ⟨true, some (segStr ("next", pageUrl (k + 1))),
          some (pages.getD k []), none⟩ := by
    simp [mkWorldErr, decodeUrl_pageUrl, hk]
  rw [try_next_fetch (mkWorldErr pages bad) (pageUrl k) (pageUrl_ne_empty k) _ hw rfl
    (pages.getD k []) rfl]
  have hnext : (match lookupS (extract_links
        ((some (segStr ("next", pageUrl (k + 1))) : Option String).getD "")) "next" with
      | some url => url
      | none => "") = pageUrl (k + 1) := by
    simp only [Option.getD_some]
    rw [extract_links_next (pageUrl (k + 1)) (goodUrl_pageUrl (k + 1))]
  rw [hnext]
  cases pages.getD k [] <;> rfl

theorem drop_getD_cons {α : Type} : ∀ (l : List α) (k : Nat) (d : α), k < l.length →
    l.drop k = l.getD k d :: l.drop (k + 1) := by
  intro l
  induction l with
  | nil => intro k d h; simp at h
  | cons a as ihl =>
      intro k d h
      cases k with
      | zero => rfl
      | succ k2 =>
          have h2 : k2 < as.length := by simp at h; omega
          rw [List.drop_succ_cons, List.getD_cons_succ, ihl k2 d h2,
            show k2 + 1 + 1 = k2 + 2 from rfl]
          rfl

theorem runN_succ_eq (w : GhWorld) (n : Nat) (s s2 : Notifications)
    (r : Except GhErr (Option Notification)) (h : try_next w s = (r, s2)) :
    runN w (n + 1) s = (r :: (runN w n s2).1, (runN w n s2).2) := by
  simp only [runN, h]

theorem runC1 (pages : List (List Notification))
    (hne : ∀ i, i + 1 < pages.length → pages.getD i [] ≠ []) :
    ∀ (d k : Nat), pages.length - k = d →
    runN (mkWorld pages) (((pages.drop k).flatten).length + 1)
        ⟨[], if k < pages.length then pageUrl k else ""⟩
      = (((pages.drop k).flatten).map (fun n => Except.ok (some n)) ++ [Except.ok none],
         ⟨[], ""⟩) := by
  intro d
  induction d with
  | zero =>
      intro k hk
      have hk2 : pages.length ≤ k := by omega
      rw [List.drop_eq_nil_of_le hk2]
      rw [if_neg (by omega)]
      simp only [List.flatten_nil, List.length_nil, List.map_nil, List.nil_append]
      simpa using runN_exhausted (mkWorld pages) 1
  | succ d ih =>
      intro k hk
      have hklt : k < pages.length := by omega
      rw [if_pos hklt]
      rw [drop_getD_cons pages k [] hklt, List.flatten_cons]
      cases hitems : pages.getD k [] with
      | nil =>
          have hlast : ¬ (k + 1 < pages.length) := fun hcon => hne k hcon hitems
          have hdrop2 : pages.drop (k + 1) = [] := List.drop_eq_nil_of_le (by omega)
          have hstep := try_next_mkWorld pages k hklt
          rw [hitems, if_neg hlast] at hstep
          have hstep2 : try_next (mkWorld pages) ⟨[], pageUrl k⟩
              = (Except.ok none, ⟨[], ""⟩) := hstep
          rw [hdrop2]
          simp only [List.flatten_nil, List.nil_append, List.length_nil, List.map_nil,
            Nat.zero_add]
          show runN (mkWorld pages) (0 + 1) ⟨[], pageUrl k⟩ = _
          rw [runN_succ_eq (mkWorld pages) 0 ⟨[], pageUrl k⟩ ⟨[], ""⟩ (Except.ok none) hstep2]
          rfl
      | cons n rest =>
          have hstep := try_next_mkWorld pages k hklt
          rw [hitems] at hstep
          have hstep2 : try_next (mkWorld pages) ⟨[], pageUrl k⟩
              = (Except.ok (some n),
                 ⟨rest, if k + 1 < pages.length then pageUrl (k + 1) else ""⟩) := hstep
          rw [show ((n :: rest) ++ (pages.drop (k + 1)).flatten).length + 1
              = (rest.length + ((pages.drop (k + 1)).flatten.length + 1)) + 1 from by
            simp
            omega]
          rw [runN_succ_eq (mkWorld pages)
            (rest.length + ((pages.drop (k + 1)).flatten.length + 1))
            ⟨[], pageUrl k⟩
            ⟨rest, if k + 1 < pages.length then pageUrl (k + 1) else ""⟩
            (Except.ok (some n)) hstep2]
          rw [runN_drain (mkWorld pages) rest _ ((pages.drop (k + 1)).flatten.length + 1)]
          have ihk := ih (k + 1) (by omega)
          rw [ihk]
          simp [List.map_cons, List.map_append, List.append_assoc]

/-- C1 (amended): for every finite page sequence whose last page has no
"next" relation AND in which every page before the last is non-empty,
the fetcher yields exactly the concatenation of all pages' items in
page order, then signals end-of-sequence on every further call; after
fetching a non-empty page the next item returned is its first item.
(As stated the claim is false: a newly fetched EMPTY page makes
`try_next` return `Ok(None)` — end-of-sequence — even when the cursor
is non-empty, so a non-final empty page truncates the sequence; see the
counterexample.) -/
theorem C1_pagination (pages : List (List Notification)) (h1 : pages ≠ [])
    (h2 : ∀ i, i + 1 < pages.length → pages.getD i [] ≠ []) (m : Nat) :
    traceN (mkWorld pages) (pages.flatten.length + 1 + m) (notificationsInit "http://p")
      = pages.flatten.map (fun n => Except.ok (some n))
        ++ List.replicate (m + 1) (Except.ok none) := by
  have hlen : 0 < pages.length := by
    cases pages with
    | nil => exact absurd rfl h1
    | cons a as => simp
  have hinit : notificationsInit "http://p" = ⟨[], pageUrl 0⟩ := by
    show (⟨[], "http://p" ++ "/notifications"⟩ : Notifications) = _
    have hu : ("http://p" ++ "/notifications" : String) = pageUrl 0 := by decide
    rw [hu]
  rw [hinit]
  unfold traceN
  rw [runN_add (mkWorld pages) (pages.flatten.length + 1) m ⟨[], pageUrl 0⟩]
  have hrun := runC1 pages h2 pages.length 0 (by omega)
  rw [if_pos hlen, List.drop_zero] at hrun
  rw [hrun]
  simp only [runN_exhausted]
  simp [List.replicate_succ, List.append_assoc]

/-- C1 witness: two pages `[a, b]` and `[c]`; the trace is the three
items in order followed by end-of-sequence. -/
theorem C1_witness :
    ([[Notification.mk "a", ⟨"b"⟩], [⟨"c"⟩]] : List (List Notification)) ≠ []
    ∧ (∀ i, i + 1 < ([[Notification.mk "a", ⟨"b"⟩], [⟨"c"⟩]] :
        List (List Notification)).length →
        ([[Notification.mk "a", ⟨"b"⟩], [⟨"c"⟩]] :
          List (List Notification)).getD i [] ≠ [])
    ∧ traceN (mkWorld [[Notification.mk "a", ⟨"b"⟩], [⟨"c"⟩]])
        (([[Notification.mk "a", ⟨"b"⟩], [⟨"c"⟩]] :
          List (List Notification)).flatten.length + 1 + 0)
        (notificationsInit "http://p")
      = ([[Notification.mk "a", ⟨"b"⟩], [⟨"c"⟩]] :
          List (List Notification)).flatten.map (fun n => Except.ok (some n))
        ++ List.replicate (0 + 1) (Except.ok none) :=
  ⟨by decide,
   fun i hi => by
     have h2 : i = 0 := by
       have h3 : i + 1 < 2 := by simpa using hi
       omega
     subst h2
     decide,
   C1_pagination [[Notification.mk "a", ⟨"b"⟩], [⟨"c"⟩]] (by decide)
     (fun i hi => by
       have h2 : i = 0 := by
         have h3 : i + 1 < 2 := by simpa using hi
         omega
       subst h2
       decide) 0⟩

/-- C1 counterexample: a first page that is empty but carries a "next"
relation.  The fetcher signals end-of-sequence on the very first call —
before the item of the second page — although the concatenation of the
pages' items is non-empty, refuting "yields exactly the concatenation
of all pages' items, then signals end-of-sequence" and "returns
end-of-sequence only when both the new page is empty and the cursor is
empty". -/
theorem C1_counterexample :
    traceN (mkWorld [[], [Notification.mk "a"]]) 2 (notificationsInit "http://p")
      = [Except.ok none, Except.ok (some ⟨"a"⟩)]
    ∧ ([[], [Notification.mk "a"]] : List (List Notification)).flatten
        = [Notification.mk "a"]
    ∧ traceN (mkWorld [[], [Notification.mk "a"]]) 2 (notificationsInit "http://p")
      ≠ ([[], [Notification.mk "a"]] : List (List Notification)).flatten.map
          (fun n => Except.ok (some n)) ++ [Except.ok none] := by decide

theorem runC2 (pages : List (List Notification)) (bad : FetchOutcome) (e : GhErr)
    (hb : fetchFailure bad = some e)
    (hne : ∀ i, i < pages.length → pages.getD i [] ≠ []) :
    ∀ (d k : Nat), pages.length - k = d → k ≤ pages.length →
    (runN (mkWorldErr pages bad) (((pages.drop k).flatten).length + 1)
        ⟨[], pageUrl k⟩).1
      = ((pages.drop k).flatten).map (fun n => Except.ok (some n))
        ++ [Except.error e] := by
  intro d
  induction d with
  | zero =>
      intro k hk hkle
      have hkeq : k = pages.length := by omega
      subst hkeq
      rw [List.drop_length]
      simp only [List.flatten_nil, List.length_nil, List.map_nil, List.nil_append,
        Nat.zero_add]
      have hw : mkWorldErr pages bad (pageUrl pages.length) = bad := by
        simp [mkWorldErr, decodeUrl_pageUrl]
      have hfail := try_next_fail (mkWorldErr pages bad) (pageUrl pages.length)
        (pageUrl_ne_empty _) e (by rw [hw]; exact hb)
      obtain ⟨s2, hpair⟩ : ∃ s2, try_next (mkWorldErr pages bad) ⟨[], pageUrl pages.length⟩
          = (Except.error e, s2) := by
        refine ⟨(try_next (mkWorldErr pages bad) ⟨[], pageUrl pages.length⟩).2, ?_⟩
        rw [← hfail]
      show (runN (mkWorldErr pages bad) (0 + 1) ⟨[], pageUrl pages.length⟩).1 = _
      rw [runN_succ_eq (mkWorldErr pages bad) 0 ⟨[], pageUrl pages.length⟩ s2
        (Except.error e) hpair]
      rfl
  | succ d ih =>
      intro k hk hkle
      have hklt : k < pages.length := by omega
      rw [drop_getD_cons pages k [] hklt, List.flatten_cons]
      cases hitems : pages.getD k [] with
      | nil => exact absurd hitems (hne k hklt)
      | cons n rest =>
          have hstep := try_next_mkWorldErr pages bad k hklt
          rw [hitems] at hstep
          have hstep2 : try_next (mkWorldErr pages bad) ⟨[], pageUrl k⟩
              = (Except.ok (some n), ⟨rest, pageUrl (k + 1)⟩) := hstep
          rw [show ((n :: rest) ++ (pages.drop (k + 1)).flatten).length + 1
              = (rest.length + ((pages.drop (k + 1)).flatten.length + 1)) + 1 from by
            simp
            omega]
          rw [runN_succ_eq (mkWorldErr pages bad)
            (rest.length + ((pages.drop (k + 1)).flatten.length + 1))
            ⟨[], pageUrl k⟩ ⟨rest, pageUrl (k + 1)⟩ (Except.ok (some n)) hstep2]
          rw [runN_drain (mkWorldErr pages bad) rest _
            ((pages.drop (k + 1)).flatten.length + 1)]
          have ihk := ih (k + 1) (by omega) (by omega)
          simp only [List.map_cons, List.cons_append]
          rw [ihk]
          simp [List.map_append, List.append_assoc]

/-- C2 (amended): if every one of the pages before the failing one is
non-empty and fetching page K fails (transport error, non-success
status — whether or not its error body parses — or unparsable body),
the fetcher yields all items of pages 1..K-1 and then an error on the
following call; a consumer that stops at the first error, as the
aggregation fold of `Github::update` does, therefore observes exactly
those items and a single error.  (The further part of the claim — that
no item is EVER returned afterwards no matter how many more times
next() is called — is false: after an unparsable body the cursor has
already advanced, so a further call fetches the next page and can yield
items; see the counterexample.) -/
theorem C2_failing_page (pages : List (List Notification)) (bad : FetchOutcome)
    (e : GhErr) (hb : fetchFailure bad = some e)
    (hne : ∀ i, i < pages.length → pages.getD i [] ≠ []) :
    traceN (mkWorldErr pages bad) (pages.flatten.length + 1) (notificationsInit "http://p")
      = pages.flatten.map (fun n => Except.ok (some n)) ++ [Except.error e] := by
  have hinit : notificationsInit "http://p" = ⟨[], pageUrl 0⟩ := by
    show (⟨[], "http://p" ++ "/notifications"⟩ : Notifications) = _
    have hu : ("http://p" ++ "/notifications" : String) = pageUrl 0 := by decide
    rw [hu]
  rw [hinit]
  unfold traceN
  have hrun := runC2 pages bad e hb hne pages.length 0 (by omega) (by omega)
  rw [List.drop_zero] at hrun
  exact hrun

/-- C2 witness: one good page `[m]` followed by a transport failure:
the trace is the item then the transport error. -/
theorem C2_witness :
    fetchFailure FetchOutcome.sendErr = some GhErr.transport
    ∧ (∀ i, i < ([[Notification.mk "m"]] : List (List Notification)).length →
        ([[Notification.mk "m"]] : List (List Notification)).getD i [] ≠ [])
    ∧ traceN (mkWorldErr [[Notification.mk "m"]] FetchOutcome.sendErr)
        (([[Notification.mk "m"]] : List (List Notification)).flatten.length + 1)
        (notificationsInit "http://p")
      = ([[Notification.mk "m"]] : List (List Notification)).flatten.map
          (fun n => Except.ok (some n)) ++ [Except.error GhErr.transport] :=
  ⟨rfl,
   fun i hi => by
     have h2 : i = 0 := by
       have h3 : i < 1 := by simpa using hi
       omega
     subst h2
     decide,
   C2_failing_page [[Notification.mk "m"]] FetchOutcome.sendErr GhErr.transport rfl
     (fun i hi => by
       have h2 : i = 0 := by
         have h3 : i < 1 := by simpa using hi
         omega
       subst h2
       decide)⟩

/-- C2 counterexample: the first page has a valid "next" link but an
unparsable body.  `try_next` updates the cursor BEFORE parsing the
body, so the first call yields the parse error and the second call
fetches the next page and yields its item — an item returned from the
sequence after the error, refuting "after that error no further items
are ever returned, no matter how many more times next() is called". -/
theorem C2_counterexample :
    traceN (fun url =>
        if url == pageUrl 0 then
          FetchOutcome.resp ⟨true, some (segStr ("next", pageUrl 1)), none, none⟩
        else if url == pageUrl 1 then
          FetchOutcome.resp ⟨true, none, some [Notification.mk "a"], none⟩
        else FetchOutcome.sendErr) 2 (notificationsInit "http://p")
      = [Except.error GhErr.parse, Except.ok (some ⟨"a"⟩)] := by decide
